import Mathlib

/-!
Shallow embedding of the planar region partition engine of `SplitSurface.js`
(repository Memortal/PATTERNS): the `splitSurface` orchestrator, the
fixed-point coordinate mapper (`scaleUpPath` / `scaleDownPath`) and the inline
blade builder.  The sweep-line clipping engine itself is the external
ClipperLib dependency (not part of this repository); it enters the embedding
as an explicit function parameter, and the properties the design document
ascribes to it are modelled as predicates on that parameter.
-/

namespace Patterns

/-- A real-valued 2D point: the plain `{ x, y }` coordinate objects used
throughout `SplitSurface.js`. -/
@[ext]
structure Point where
  x : ℝ
  y : ℝ

/-- A ClipperLib lattice point: the `{ X, Y }` integer-coordinate objects
produced by `scaleUpPath` and consumed by `scaleDownPath`. -/
@[ext]
structure IntPoint where
  X : ℤ
  Y : ℤ
deriving DecidableEq

/-- A cut polyline.  `splitSurface` reads only `line.points[0]` and
`line.points[1]`; the `id` and optional `color` fields of the JS objects are
never consumed by the partition code, so they are omitted here. -/
structure Polyline where
  p0 : Point
  p1 : Point

/-- ECMAScript `Math.round`: the nearest integer, with ties rounded toward
positive infinity (`Math.round(r)` is the floor of `r + 1/2`). -/
noncomputable def jsRound (r : ℝ) : ℤ := ⌊r + 1 / 2⌋

/-- `scaleUpPath` (SplitSurface.js lines 1334-1339): maps each `{x, y}` to
`{X: Math.round(point.x * scale), Y: Math.round(point.y * scale)}`. -/
noncomputable def scaleUpPath (path : List Point) (scale : ℝ) : List IntPoint :=
  path.map fun point => ⟨jsRound (point.x * scale), jsRound (point.y * scale)⟩

/-- `scaleDownPath` (SplitSurface.js lines 1342-1347): maps each `{X, Y}` to
`{x: point.X / scale, y: point.Y / scale}`. -/
noncomputable def scaleDownPath (path : List IntPoint) (scale : ℝ) : List Point :=
  path.map fun point => ⟨(point.X : ℝ) / scale, (point.Y : ℝ) / scale⟩

/-- The canvas rectangle `[{0,0},{width,0},{width,height},{0,height}]`,
built twice in `splitSurface` (lines 1234-1239 and 1245-1250). -/
def canvasPath (width height : ℝ) : List Point :=
  [⟨0, 0⟩, ⟨width, 0⟩, ⟨width, height⟩, ⟨0, height⟩]

/-- The thin quadrilateral (`path`, lines 1276-1293) built from one polyline
inside the `polylines.forEach` loop of `splitSurface`: with `lineWidth = 1`,
`offset = (lineWidth / 2) * scale`, direction `(dx, dy)`, length
`Math.sqrt(dx*dx + dy*dy)` and normal `(dy/length, -dx/length)`, the four
vertices are the two endpoints offset by `±(normX, normY) * (offset/scale)`. -/
noncomputable def bladePath (line : Polyline) (scale : ℝ) : List Point :=
  let lineWidth : ℝ := 1
  let dx := line.p1.x - line.p0.x
  let dy := line.p1.y - line.p0.y
  let length := Real.sqrt (dx * dx + dy * dy)
  let offset := lineWidth / 2 * scale
  let normX := dy / length
  let normY := -dx / length
  [⟨line.p0.x + normX * (offset / scale), line.p0.y + normY * (offset / scale)⟩,
   ⟨line.p1.x + normX * (offset / scale), line.p1.y + normY * (offset / scale)⟩,
   ⟨line.p1.x - normX * (offset / scale), line.p1.y - normY * (offset / scale)⟩,
   ⟨line.p0.x - normX * (offset / scale), line.p0.y - normY * (offset / scale)⟩]

/-- One iteration of the `polylines.forEach` loop (lines 1262-1300): `none`
models the early `return` on a degenerate segment (`length === 0`), otherwise
the scaled-up blade that is handed to `clipper.AddPath(..., ptClip, true)`. -/
noncomputable def clipOf (scale : ℝ) (line : Polyline) : Option (List IntPoint) :=
  let dx := line.p1.x - line.p0.x
  let dy := line.p1.y - line.p0.y
  let length := Real.sqrt (dx * dx + dy * dy)
  if length = 0 then none else some (scaleUpPath (bladePath line scale) scale)

/-- The observable behaviour of one ClipperLib
`Execute(ctDifference, solution, pftNonZero, pftNonZero)` call on one subject
path and the accumulated clip paths.  `none` models `succeeded === false`
(the `ClippingFailed` condition); `some sol` models success with solution
paths `sol`.  ClipperLib is an external dependency, not code of this
repository, so it is kept abstract. -/
abbrev Engine : Type :=
  List IntPoint → List (List IntPoint) → Option (List (List IntPoint))

/-- `splitSurface` (SplitSurface.js lines 1230-1331), parameterised by the
clipping engine.  Mirrors the source: short-circuit on an empty polyline list;
otherwise scale up the main polygon, accumulate one clip path per
non-degenerate polyline, run the difference, return `[]` when `Execute`
reports failure, and otherwise scale down every non-empty solution path. -/
noncomputable def splitSurface (engine : Engine) (width height : ℝ)
    (polylines : List Polyline) : List (List Point) :=
  if polylines.isEmpty then
    [canvasPath width height]
  else
    let scale : ℝ := 100
    let subj := scaleUpPath (canvasPath width height) scale
    let clips := polylines.filterMap (clipOf scale)
    match engine subj clips with
    | none => []
    | some solutionPaths =>
        (solutionPaths.filter fun path => path.length > 0).map
          fun path => scaleDownPath path scale

/-- An engine that always reports failure (`succeeded === false`). -/
def failEngine : Engine := fun _ _ => none

/-- The rounding rule named by the design document: nearest integer, with
ties rounded away from zero. -/
noncomputable def roundHalfAwayFromZero (r : ℝ) : ℤ :=
  if 0 ≤ r then ⌊r + 1 / 2⌋ else -⌊-r + 1 / 2⌋

/-- The other rounding rule named by the design document: nearest integer,
with ties rounded to the even neighbour. -/
noncomputable def roundHalfToEven (r : ℝ) : ℤ :=
  if r - ⌊r⌋ = 1 / 2 then (if Even ⌊r⌋ then ⌊r⌋ else ⌊r⌋ + 1) else ⌊r + 1 / 2⌋

/-- Modelled from the spec: §4.3 defines `Execute` as computing
`subject \ union(clips)` (the sweep itself lives in the external ClipperLib
dependency, which is not part of this repository); when no clip polygons at
all are supplied nothing is removed, so the difference is the subject ring
itself.  This concrete engine realises that behaviour, and returns no
polygons when clips are present (a case the theorems below never reach). -/
def subjectOnEmptyClips : Engine := fun subj clips =>
  some (if clips.isEmpty then [subj] else [])

/-- A point lying on the closed segment from `a` to `b`. -/
def onSeg (a b p : Point) : Prop :=
  ∃ t : ℝ, 0 ≤ t ∧ t ≤ 1 ∧ p = ⟨a.x + t * (b.x - a.x), a.y + t * (b.y - a.y)⟩

/-- Two closed segments share at least one point. -/
def segMeets (a b c d : Point) : Prop := ∃ p : Point, onSeg a b p ∧ onSeg c d p

/-- Vertex `i` of a closed ring, indices taken modulo the ring length. -/
def ringVtx (r : List Point) (i : ℕ) : Point := r.getD (i % r.length) ⟨0, 0⟩

/-- A closed ring with no self-intersections: at least three vertices,
consecutive vertices distinct, and non-adjacent edges disjoint. -/
def IsSimpleRing (r : List Point) : Prop :=
  3 ≤ r.length ∧
  (∀ i < r.length, ringVtx r i ≠ ringVtx r (i + 1)) ∧
  ∀ i j, i < r.length → j < r.length → i ≠ j →
    (i + 1) % r.length ≠ j → (j + 1) % r.length ≠ i →
    ¬ segMeets (ringVtx r i) (ringVtx r (i + 1)) (ringVtx r j) (ringVtx r (j + 1))

/-- A list holding at least three pairwise distinct points. -/
def ThreeDistinct (r : List Point) : Prop :=
  ∃ a b c : Point, a ∈ r ∧ b ∈ r ∧ c ∈ r ∧ a ≠ b ∧ a ≠ c ∧ b ≠ c

/-- Twice the signed (shoelace) area of a closed ring. -/
def signedArea2 (r : List Point) : ℝ :=
  ((r.zip (r.rotate 1)).map fun e => e.1.x * e.2.y - e.2.x * e.1.y).sum

/-- The z-component of the cross product of the two ring edges meeting at
vertex `i + 1`; positive at every corner of a strictly convex ring whose
winding is counter-clockwise in the y-up reading of the plane. -/
def crossAt (r : List Point) (i : ℕ) : ℝ :=
  ((ringVtx r (i + 1)).x - (ringVtx r i).x) *
      ((ringVtx r (i + 2)).y - (ringVtx r (i + 1)).y) -
    ((ringVtx r (i + 1)).y - (ringVtx r i).y) *
      ((ringVtx r (i + 2)).x - (ringVtx r (i + 1)).x)

/-- The geometric content the design document assigns to the blade builder at
scale 100: writing `(dx, dy)` for the segment direction and `L` for its
Euclidean length, the pair `(nx, ny) = (dy/L, -dx/L)` is a unit normal of
the segment, the four blade vertices are the two endpoints offset by
`+(1/2)·(nx,ny)` and `-(1/2)·(nx,ny)` (half-width 0.5 canvas units), the
quadrilateral is strictly convex with cross product `L > 0` at all four
corners (the same winding for every segment), and the ring is simple. -/
def BladeSpec (line : Polyline) : Prop :=
  ∃ nx ny : ℝ,
    nx ^ 2 + ny ^ 2 = 1 ∧
    nx * (line.p1.x - line.p0.x) + ny * (line.p1.y - line.p0.y) = 0 ∧
    bladePath line 100 =
      [⟨line.p0.x + 1 / 2 * nx, line.p0.y + 1 / 2 * ny⟩,
       ⟨line.p1.x + 1 / 2 * nx, line.p1.y + 1 / 2 * ny⟩,
       ⟨line.p1.x - 1 / 2 * nx, line.p1.y - 1 / 2 * ny⟩,
       ⟨line.p0.x - 1 / 2 * nx, line.p0.y - 1 / 2 * ny⟩] ∧
    (∀ i < 4, 0 < crossAt (bladePath line 100) i) ∧
    IsSimpleRing (bladePath line 100)

/-- Componentwise scaling of a point by a factor. -/
def dilate (c : ℝ) (p : Point) : Point := ⟨c * p.x, c * p.y⟩

/-- The real-plane reading of a lattice point. -/
def IntPoint.toPoint (q : IntPoint) : Point := ⟨(q.X : ℝ), (q.Y : ℝ)⟩

/-- Modelled from the spec: step 7 of §4.3 — the clipping engine closes and
emits only output rings that are simple, have at least 3 distinct points and
strictly positive area ("ignore rings with fewer than 3 distinct points or
non-positive area"); the sweep that guarantees this lives in the external
ClipperLib dependency, which is not part of this repository, so the
guarantee is recorded as a predicate on the engine parameter (read at the
lattice scale, before the orchestrator scales the rings back down). -/
def EngineOutputOK (engine : Engine) : Prop :=
  ∀ subj clips sol, engine subj clips = some sol →
    ∀ r ∈ sol, IsSimpleRing (r.map IntPoint.toPoint) ∧
      ThreeDistinct (r.map IntPoint.toPoint) ∧
      0 < signedArea2 (r.map IntPoint.toPoint)

/-- An engine that always succeeds with an empty solution. -/
def emptySuccessEngine : Engine := fun _ _ => some []

/-- Modelled from the spec: §4.3 defines `Execute` as computing
`subject \ union(clips)` (the sweep lives in the external ClipperLib
dependency, which is not part of this repository).  A clip set whose every
vertex lies strictly to the right of every subject vertex is disjoint from
the subject polygon, removes nothing, and the difference is the subject ring
itself. -/
def RespectsDisjointClips (engine : Engine) : Prop :=
  ∀ subj clips,
    (∀ r ∈ clips, ∀ p ∈ r, ∀ q ∈ subj, q.X < p.X) →
    engine subj clips = some [subj]

/-- A concrete engine realising `RespectsDisjointClips`: it checks the
half-plane separation and returns the subject untouched when it holds
(and no polygons otherwise, a case the theorems below never reach). -/
def outsideAwareEngine : Engine := fun subj clips =>
  some (if clips.all fun r => r.all fun p => subj.all fun q => q.X < p.X
        then [subj] else [])

/-- Claim C2: with an empty cut list, the partition operation returns exactly
the canvas rectangle `[(0,0),(w,0),(w,h),(0,h)]` as the single polygon, and
the result does not depend on the clipping engine at all (the engine is never
invoked). -/
theorem splitSurface_no_cuts (engine : Engine) (w h : ℝ) :
    splitSurface engine w h [] = [canvasPath w h] ∧
    ∀ engine₂ : Engine, splitSurface engine w h [] = splitSurface engine₂ w h [] := by
  refine ⟨rfl, fun engine₂ => rfl⟩

/-- Claim C1 (counterexample): with a clipping engine that reports failure,
`splitSurface` on a 100×100 canvas and one vertical cut returns the empty
list, not the whole-canvas fallback the claim asserts. -/
theorem splitSurface_clippingFailed_counterexample :
    splitSurface failEngine 100 100 [⟨⟨0, 0⟩, ⟨0, 100⟩⟩] = [] ∧
    splitSurface failEngine 100 100 [⟨⟨0, 0⟩, ⟨0, 100⟩⟩] ≠ [canvasPath 100 100] := by
  have h : splitSurface failEngine 100 100 [⟨⟨0, 0⟩, ⟨0, 100⟩⟩] = [] := rfl
  refine ⟨h, ?_⟩
  rw [h]
  simp

/-- Claim C1 (amended): whenever the cut list is non-empty and the clipping
engine reports failure on the scaled-up canvas and accumulated clips,
`splitSurface` returns the empty list (the code logs the condition and
surfaces an empty result instead of the canvas fallback). -/
theorem splitSurface_clippingFailed_empty (engine : Engine) (w h : ℝ)
    (ps : List Polyline) (hps : ps ≠ [])
    (hfail : engine (scaleUpPath (canvasPath w h) 100)
      (ps.filterMap (clipOf 100)) = none) :
    splitSurface engine w h ps = [] := by
  have hne : ps.isEmpty = false := by
    cases ps with
    | nil => exact absurd rfl hps
    | cons a l => rfl
  simp only [splitSurface, hne, Bool.false_eq_true, if_false]
  rw [hfail]

/-- Claim C1 (witness): the amended theorem applied to the failing engine on a
100×100 canvas with one vertical cut. -/
theorem splitSurface_clippingFailed_empty_witness :
    (([⟨⟨0, 0⟩, ⟨0, 100⟩⟩] : List Polyline) ≠ []) ∧
    failEngine (scaleUpPath (canvasPath 100 100) 100)
      (([⟨⟨0, 0⟩, ⟨0, 100⟩⟩] : List Polyline).filterMap (clipOf 100)) = none ∧
    splitSurface failEngine 100 100 [⟨⟨0, 0⟩, ⟨0, 100⟩⟩] = [] :=
  ⟨by simp, rfl,
    splitSurface_clippingFailed_empty failEngine 100 100 _ (by simp) rfl⟩

/-- Claim C3 (counterexample): with width and height both 0 (non-positive),
`splitSurface` runs normally and silently returns the degenerate rectangle
whose four vertices all coincide at the origin — it neither refuses to run
nor reports any `InvalidCanvas` condition (the code has no such check or
error channel). -/
theorem splitSurface_invalidCanvas_counterexample :
    splitSurface failEngine 0 0 [] = [canvasPath 0 0] ∧
    canvasPath 0 0 = [⟨0, 0⟩, ⟨0, 0⟩, ⟨0, 0⟩, ⟨0, 0⟩] :=
  ⟨rfl, rfl⟩

/-- Claim C3 (amended): the operation performs no canvas validation: for
non-positive width or height it proceeds exactly as for a valid canvas and
(for an empty cut list) returns the possibly degenerate canvas rectangle. -/
theorem splitSurface_no_canvas_validation (engine : Engine) (w h : ℝ)
    (hwh : w ≤ 0 ∨ h ≤ 0) :
    splitSurface engine w h [] = [canvasPath w h] := rfl

/-- Claim C3 (witness): the amended theorem applied at width = height = 0. -/
theorem splitSurface_no_canvas_validation_witness :
    ((0 : ℝ) ≤ 0 ∨ (0 : ℝ) ≤ 0) ∧
    splitSurface failEngine 0 0 [] = [canvasPath 0 0] :=
  ⟨Or.inl le_rfl, splitSurface_no_canvas_validation failEngine 0 0 (Or.inl le_rfl)⟩

/-- Claim C4 (counterexample): at the coordinate `x = -3/200` with the fixed
scale 100 the product is `-1.5`; the code (JS `Math.round`) maps it to the
lattice value `-1`, while round-half-away-from-zero and round-half-to-even
both map it to `-2`, so the scaling-up step implements neither of the two
rounding rules the claim allows. -/
theorem scaleUpPath_rounding_counterexample :
    scaleUpPath [⟨-(3 / 200), 0⟩] 100 = [⟨-1, 0⟩] ∧
    roundHalfAwayFromZero (-(3 / 200) * 100) = -2 ∧
    roundHalfToEven (-(3 / 200) * 100) = -2 := by
  have hprod : (-(3 / 200) * 100 : ℝ) = -(3 / 2) := by norm_num
  have hfloor : ⌊(-(3 / 2) : ℝ)⌋ = -2 := by
    rw [Int.floor_eq_iff]
    norm_num
  refine ⟨?_, ?_, ?_⟩
  · unfold scaleUpPath jsRound
    simp only [List.map_cons, List.map_nil]
    congr 1
    · congr 1
      · rw [hprod, show (-(3 / 2) + 1 / 2 : ℝ) = ((-1 : ℤ) : ℝ) by norm_num,
          Int.floor_intCast]
      · rw [show ((0 : ℝ) * 100 + 1 / 2 : ℝ) = 1 / 2 by norm_num]
        rw [Int.floor_eq_iff]
        norm_num
  · rw [hprod]
    unfold roundHalfAwayFromZero
    rw [if_neg (by norm_num)]
    rw [show (-(-(3 / 2)) + 1 / 2 : ℝ) = ((2 : ℤ) : ℝ) by norm_num, Int.floor_intCast]
  · rw [hprod]
    unfold roundHalfToEven
    rw [hfloor, if_pos (by norm_num), if_pos (by decide)]

/-- Claim C4 (amended): the scaling-up step multiplies each coordinate by the
scale and rounds half toward positive infinity (JS `Math.round`); on every
path whose scaled coordinates are non-negative this coincides with
round-half-away-from-zero (and the rule is a fixed deterministic function of
the input, so repeated calls agree), but on negative half-integer products it
differs from both rules named by the claim. -/
theorem scaleUpPath_rounds_half_up (path : List Point) (scale : ℝ)
    (hpos : ∀ p ∈ path, 0 ≤ p.x * scale ∧ 0 ≤ p.y * scale) :
    scaleUpPath path scale =
      path.map fun p =>
        ⟨roundHalfAwayFromZero (p.x * scale), roundHalfAwayFromZero (p.y * scale)⟩ := by
  unfold scaleUpPath
  apply List.map_congr_left
  intro p hp
  obtain ⟨hx, hy⟩ := hpos p hp
  unfold jsRound roundHalfAwayFromZero
  rw [if_pos hx, if_pos hy]

/-- Claim C4 (witness): the amended theorem applied to the single point
`(1, 2)` at scale 100. -/
theorem scaleUpPath_rounds_half_up_witness :
    (∀ p ∈ ([⟨1, 2⟩] : List Point), 0 ≤ p.x * 100 ∧ 0 ≤ p.y * 100) ∧
    scaleUpPath [⟨1, 2⟩] 100 =
      ([⟨1, 2⟩] : List Point).map fun p =>
        ⟨roundHalfAwayFromZero (p.x * 100), roundHalfAwayFromZero (p.y * 100)⟩ := by
  have hpos : ∀ p ∈ ([⟨1, 2⟩] : List Point), 0 ≤ p.x * 100 ∧ 0 ≤ p.y * 100 := by
    intro p hp
    simp only [List.mem_singleton] at hp
    subst hp
    constructor <;> norm_num
  exact ⟨hpos, scaleUpPath_rounds_half_up [⟨1, 2⟩] 100 hpos⟩

/-- A degenerate polyline (coincident endpoints) is skipped by the
`forEach` body: its `length` is `Math.sqrt(0) = 0` and the early `return`
fires, so no clip path is accumulated. -/
lemma clipOf_eq_none (scale : ℝ) (line : Polyline) (h : line.p0 = line.p1) :
    clipOf scale line = none := by
  have hx : line.p1.x - line.p0.x = 0 := by rw [h]; ring
  have hy : line.p1.y - line.p0.y = 0 := by rw [h]; ring
  unfold clipOf
  rw [hx, hy]
  simp

/-- Claim C6 (counterexample): on a `1/3 × 1` canvas, a cut list whose only
element is a zero-length segment does NOT produce the same result as the
empty cut list: the degenerate segment is skipped, but because the list is
non-empty the clipping engine is still invoked (with no blades) instead of
the exact short-circuit, and the canvas comes back quantised to the 1/100
lattice (`x = 33/100` instead of `x = 1/3`). -/
theorem splitSurface_degenerate_only_counterexample :
    splitSurface subjectOnEmptyClips (1 / 3) 1 [⟨⟨7, 7⟩, ⟨7, 7⟩⟩] ≠
      splitSurface subjectOnEmptyClips (1 / 3) 1 [] := by
  have hclip : clipOf 100 (⟨⟨7, 7⟩, ⟨7, 7⟩⟩ : Polyline) = none :=
    clipOf_eq_none 100 _ rfl
  have h0 : jsRound ((0 : ℝ) * 100) = 0 := by
    unfold jsRound
    rw [show ((0 : ℝ) * 100 + 1 / 2) = 1 / 2 by norm_num, Int.floor_eq_iff]
    norm_num
  have h13 : jsRound ((1 / 3 : ℝ) * 100) = 33 := by
    unfold jsRound
    rw [Int.floor_eq_iff]
    norm_num
  have h1 : jsRound ((1 : ℝ) * 100) = 100 := by
    unfold jsRound
    rw [Int.floor_eq_iff]
    norm_num
  have hsubj : scaleUpPath (canvasPath (1 / 3) 1) 100 =
      [⟨0, 0⟩, ⟨33, 0⟩, ⟨33, 100⟩, ⟨0, 100⟩] := by
    unfold scaleUpPath canvasPath
    simp only [List.map_cons, List.map_nil]
    rw [h0, h13, h1]
  have hL : splitSurface subjectOnEmptyClips (1 / 3) 1 [⟨⟨7, 7⟩, ⟨7, 7⟩⟩] =
      [[⟨0, 0⟩, ⟨33 / 100, 0⟩, ⟨33 / 100, 1⟩, ⟨0, 1⟩]] := by
    have hne : ([⟨⟨7, 7⟩, ⟨7, 7⟩⟩] : List Polyline).isEmpty = false := rfl
    simp only [splitSurface, hne, Bool.false_eq_true, if_false,
      List.filterMap_cons, hclip, List.filterMap_nil, hsubj]
    unfold subjectOnEmptyClips
    simp only [List.isEmpty_nil, if_true]
    simp only [List.filter_cons, List.filter_nil, List.length_cons,
      List.length_nil, scaleDownPath, List.map_cons, List.map_nil]
    norm_num
  have hR : splitSurface subjectOnEmptyClips (1 / 3) 1 [] =
      [canvasPath (1 / 3) 1] := rfl
  rw [hL, hR]
  intro hcontra
  have := List.head_eq_of_cons_eq hcontra
  rw [canvasPath] at this
  have h2 : (⟨33 / 100, 0⟩ : Point) = ⟨1 / 3, 0⟩ := by
    have := congrArg (fun l => l.get? 1) this
    simpa using this
  have : (33 / 100 : ℝ) = 1 / 3 := congrArg Point.x h2
  norm_num at this

/-- Claim C6 (amended): removing a zero-length segment from the cut list
leaves the partition result unchanged provided the rest of the list is
non-empty — the degenerate segment is skipped and contributes no blade, so
the clipping engine is invoked with identical inputs.  (When the zero-length
segment is the only cut, the engine is still invoked with no blades instead
of taking the empty-list short-circuit, and the lattice-quantised canvas it
returns can differ from the exact short-circuit rectangle, as the
counterexample shows.) -/
theorem splitSurface_skips_degenerate (engine : Engine) (w h : ℝ)
    (pre post : List Polyline) (deg : Polyline) (hdeg : deg.p0 = deg.p1)
    (hrest : pre ++ post ≠ []) :
    splitSurface engine w h (pre ++ deg :: post) =
      splitSurface engine w h (pre ++ post) := by
  have hclips : (pre ++ deg :: post).filterMap (clipOf 100) =
      (pre ++ post).filterMap (clipOf 100) := by
    simp [List.filterMap_append, clipOf_eq_none 100 deg hdeg]
  have hne1 : (pre ++ deg :: post).isEmpty = false := by
    cases pre <;> rfl
  have hne2 : (pre ++ post).isEmpty = false := by
    cases pre with
    | nil =>
        cases post with
        | nil => exact absurd rfl hrest
        | cons a l => rfl
    | cons a l => rfl
  simp only [splitSurface, hne1, hne2, Bool.false_eq_true, if_false, hclips]

/-- Claim C6 (witness): the amended theorem applied to a cut list holding one
zero-length segment followed by one genuine vertical cut. -/
theorem splitSurface_skips_degenerate_witness :
    ((⟨⟨5, 5⟩, ⟨5, 5⟩⟩ : Polyline).p0 = (⟨⟨5, 5⟩, ⟨5, 5⟩⟩ : Polyline).p1) ∧
    (([] : List Polyline) ++ [⟨⟨0, 0⟩, ⟨0, 100⟩⟩] ≠ []) ∧
    splitSurface failEngine 100 100
        ([] ++ (⟨⟨5, 5⟩, ⟨5, 5⟩⟩ : Polyline) :: [⟨⟨0, 0⟩, ⟨0, 100⟩⟩]) =
      splitSurface failEngine 100 100 ([] ++ [⟨⟨0, 0⟩, ⟨0, 100⟩⟩]) :=
  ⟨rfl, by simp,
    splitSurface_skips_degenerate failEngine 100 100 [] [⟨⟨0, 0⟩, ⟨0, 100⟩⟩] _
      rfl (by simp)⟩

/-- Claim C8: the partition operation is a pure function of the canvas
dimensions, the cut list and the (fixed, deterministic) clipping engine: two
invocations on structurally identical inputs return structurally identical
polygon lists. -/
theorem splitSurface_deterministic (engine : Engine) (w₁ h₁ w₂ h₂ : ℝ)
    (ps₁ ps₂ : List Polyline) (hw : w₁ = w₂) (hh : h₁ = h₂) (hp : ps₁ = ps₂) :
    splitSurface engine w₁ h₁ ps₁ = splitSurface engine w₂ h₂ ps₂ := by
  rw [hw, hh, hp]

/-- Claim C8 (witness): the determinism theorem applied to two copies of the
same concrete input. -/
theorem splitSurface_deterministic_witness :
    (100 : ℝ) = 100 ∧ (50 : ℝ) = 50 ∧ ([] : List Polyline) = [] ∧
    splitSurface failEngine 100 50 [] = splitSurface failEngine 100 50 [] :=
  ⟨rfl, rfl, rfl,
    splitSurface_deterministic failEngine 100 50 100 50 [] [] rfl rfl rfl⟩

/-- JS `Math.round` lands within half a unit of its argument. -/
lemma jsRound_close (r : ℝ) : |(jsRound r : ℝ) - r| ≤ 1 / 2 := by
  unfold jsRound
  rw [abs_le]
  constructor
  · have h := Int.lt_floor_add_one (r + 1 / 2)
    linarith
  · have h := Int.floor_le (r + 1 / 2)
    linarith

/-- Scaling a coordinate up to the lattice and back moves it by at most
half a lattice unit. -/
lemma roundTrip_coord (x : ℝ) :
    |(jsRound (x * 100) : ℝ) / 100 - x| ≤ 1 / 200 := by
  have h := jsRound_close (x * 100)
  have heq : (jsRound (x * 100) : ℝ) / 100 - x =
      ((jsRound (x * 100) : ℝ) - x * 100) / 100 := by ring
  rw [heq, abs_div, abs_of_pos (by norm_num : (0 : ℝ) < 100)]
  linarith

/-- Claim C10: at the fixed scale 100, scaling a path up to the integer
lattice and back down returns a path of the same length whose points differ
from the originals by at most `1/200 = 0.005` in each coordinate. -/
theorem scaleDownPath_scaleUpPath_close (path : List Point) :
    List.Forall₂ (fun p q => |q.x - p.x| ≤ 1 / 200 ∧ |q.y - p.y| ≤ 1 / 200)
      path (scaleDownPath (scaleUpPath path 100) 100) := by
  unfold scaleDownPath scaleUpPath
  rw [List.map_map, List.forall₂_map_right_iff, List.forall₂_same]
  intro p _
  exact ⟨roundTrip_coord p.x, roundTrip_coord p.y⟩

/-- Along a segment, any affine functional that agrees on the two endpoints
is constant. -/
lemma onSeg_linear {a b p : Point} (h : onSeg a b p) (fx fy c : ℝ)
    (ha : fx * a.x + fy * a.y = c) (hb : fx * b.x + fy * b.y = c) :
    fx * p.x + fy * p.y = c := by
  obtain ⟨t, _, _, rfl⟩ := h
  simp only
  linear_combination (1 - t) * ha + t * hb

/-- Two segments carried by distinct parallel level lines of one affine
functional cannot meet. -/
lemma not_segMeets_of_separated (a b c d : Point) (fx fy v₁ v₂ : ℝ)
    (hab₁ : fx * a.x + fy * a.y = v₁) (hab₂ : fx * b.x + fy * b.y = v₁)
    (hcd₁ : fx * c.x + fy * c.y = v₂) (hcd₂ : fx * d.x + fy * d.y = v₂)
    (hv : v₁ ≠ v₂) : ¬ segMeets a b c d := by
  rintro ⟨p, h₁, h₂⟩
  exact hv ((onSeg_linear h₁ fx fy v₁ hab₁ hab₂).symm.trans
    (onSeg_linear h₂ fx fy v₂ hcd₁ hcd₂))

/-- Segment meeting is symmetric in the two segments. -/
lemma segMeets_comm {a b c d : Point} (h : segMeets a b c d) :
    segMeets c d a b := by
  obtain ⟨p, h₁, h₂⟩ := h
  exact ⟨p, h₂, h₁⟩

/-- A quadrilateral with pairwise distinct consecutive vertices whose two
pairs of opposite edges are disjoint is a simple ring. -/
lemma isSimpleRing_quad (A B C D : Point)
    (hAB : A ≠ B) (hBC : B ≠ C) (hCD : C ≠ D) (hDA : D ≠ A)
    (h02 : ¬ segMeets A B C D) (h13 : ¬ segMeets B C D A) :
    IsSimpleRing [A, B, C, D] := by
  have hlen : ([A, B, C, D] : List Point).length = 4 := rfl
  have hv0 : ringVtx [A, B, C, D] 0 = A := by simp [ringVtx]
  have hv1 : ringVtx [A, B, C, D] 1 = B := by simp [ringVtx]
  have hv2 : ringVtx [A, B, C, D] 2 = C := by simp [ringVtx]
  have hv3 : ringVtx [A, B, C, D] 3 = D := by simp [ringVtx]
  have hs1 : ringVtx [A, B, C, D] (0 + 1) = B := by simp [ringVtx]
  have hs2 : ringVtx [A, B, C, D] (1 + 1) = C := by simp [ringVtx]
  have hs3 : ringVtx [A, B, C, D] (2 + 1) = D := by simp [ringVtx]
  have hs4 : ringVtx [A, B, C, D] (3 + 1) = A := by simp [ringVtx]
  refine ⟨by norm_num, ?_, ?_⟩
  · intro i hi
    rw [hlen] at hi
    interval_cases i
    · rw [hv0, hs1]; exact hAB
    · rw [hv1, hs2]; exact hBC
    · rw [hv2, hs3]; exact hCD
    · rw [hv3, hs4]; exact hDA
  · intro i j hi hj hij hadj₁ hadj₂
    rw [hlen] at hi hj hadj₁ hadj₂
    interval_cases i <;> interval_cases j <;> first
      | omega
      | (rw [hv0, hs1, hv2, hs3]; exact h02)
      | (rw [hv2, hs3, hv0, hs1]
         exact fun hm => h02 (segMeets_comm hm))
      | (rw [hv1, hs2, hv3, hs4]; exact h13)
      | (rw [hv3, hs4, hv1, hs2]
         exact fun hm => h13 (segMeets_comm hm))

/-- The four corner cross products of a quadrilateral ring, unfolded. -/
lemma crossAt_quad (A B C D : Point) :
    crossAt [A, B, C, D] 0 =
        (B.x - A.x) * (C.y - B.y) - (B.y - A.y) * (C.x - B.x) ∧
    crossAt [A, B, C, D] 1 =
        (C.x - B.x) * (D.y - C.y) - (C.y - B.y) * (D.x - C.x) ∧
    crossAt [A, B, C, D] 2 =
        (D.x - C.x) * (A.y - D.y) - (D.y - C.y) * (A.x - D.x) ∧
    crossAt [A, B, C, D] 3 =
        (A.x - D.x) * (B.y - A.y) - (A.y - D.y) * (B.x - A.x) := by
  refine ⟨?_, ?_, ?_, ?_⟩ <;> simp [crossAt, ringVtx]

set_option maxHeartbeats 1000000 in
/-- Claim C7: for every segment with distinct endpoints, the inline blade
builder of `splitSurface` produces a 4-point polygon whose vertices are the
two endpoints offset by `±0.5` times a unit normal, ordered as a strictly
convex (hence non-self-intersecting) quadrilateral with the same winding
sign for every segment. -/
theorem bladePath_geometry (line : Polyline) (hne : line.p0 ≠ line.p1) :
    BladeSpec line := by
  obtain ⟨⟨x0, y0⟩, ⟨x1, y1⟩⟩ := line
  have hxy : x1 - x0 ≠ 0 ∨ y1 - y0 ≠ 0 := by
    by_contra hcon
    push_neg at hcon
    exact hne (Point.ext (show x0 = x1 by linarith [hcon.1])
      (show y0 = y1 by linarith [hcon.2]))
  have hsq : 0 < (x1 - x0) * (x1 - x0) + (y1 - y0) * (y1 - y0) := by
    rcases hxy with h | h
    · nlinarith [mul_self_pos.mpr h, mul_self_nonneg (y1 - y0)]
    · nlinarith [mul_self_pos.mpr h, mul_self_nonneg (x1 - x0)]
  set L := Real.sqrt ((x1 - x0) * (x1 - x0) + (y1 - y0) * (y1 - y0)) with hLdef
  have hL2 : L * L = (x1 - x0) * (x1 - x0) + (y1 - y0) * (y1 - y0) :=
    Real.mul_self_sqrt hsq.le
  have hLpos : 0 < L := Real.sqrt_pos.mpr hsq
  have hLne : L ≠ 0 := ne_of_gt hLpos
  have hblade : bladePath ⟨⟨x0, y0⟩, ⟨x1, y1⟩⟩ 100 =
      [⟨x0 + 1 / 2 * ((y1 - y0) / L), y0 + 1 / 2 * (-(x1 - x0) / L)⟩,
       ⟨x1 + 1 / 2 * ((y1 - y0) / L), y1 + 1 / 2 * (-(x1 - x0) / L)⟩,
       ⟨x1 - 1 / 2 * ((y1 - y0) / L), y1 - 1 / 2 * (-(x1 - x0) / L)⟩,
       ⟨x0 - 1 / 2 * ((y1 - y0) / L), y0 - 1 / 2 * (-(x1 - x0) / L)⟩] := by
    simp only [bladePath]
    rw [← hLdef]
    simp only [List.cons.injEq, Point.mk.injEq, and_true]
    refine ⟨⟨by ring, by ring⟩, ⟨by ring, by ring⟩, ⟨by ring, by ring⟩,
      by ring, by ring⟩
  unfold BladeSpec
  refine ⟨(y1 - y0) / L, -(x1 - x0) / L, ?_, ?_, ?_, ?_, ?_⟩
  · field_simp
    linear_combination -hL2
  · dsimp only
    field_simp
    ring
  · exact hblade
  · intro i hi
    rw [hblade]
    interval_cases i
    · rw [(crossAt_quad _ _ _ _).1]
      calc (0 : ℝ) < ((x1 - x0) * (x1 - x0) + (y1 - y0) * (y1 - y0)) / L :=
            div_pos hsq hLpos
        _ = _ := by dsimp only; field_simp; ring
    · rw [(crossAt_quad _ _ _ _).2.1]
      calc (0 : ℝ) < ((x1 - x0) * (x1 - x0) + (y1 - y0) * (y1 - y0)) / L :=
            div_pos hsq hLpos
        _ = _ := by dsimp only; field_simp; ring
    · rw [(crossAt_quad _ _ _ _).2.2.1]
      calc (0 : ℝ) < ((x1 - x0) * (x1 - x0) + (y1 - y0) * (y1 - y0)) / L :=
            div_pos hsq hLpos
        _ = _ := by dsimp only; field_simp; ring
    · rw [(crossAt_quad _ _ _ _).2.2.2]
      calc (0 : ℝ) < ((x1 - x0) * (x1 - x0) + (y1 - y0) * (y1 - y0)) / L :=
            div_pos hsq hLpos
        _ = _ := by dsimp only; field_simp; ring
  · rw [hblade]
    refine isSimpleRing_quad _ _ _ _ ?_ ?_ ?_ ?_ ?_ ?_
    · intro h
      rw [Point.mk.injEq] at h
      have hx : x1 - x0 = 0 := by linarith [h.1]
      have hy : y1 - y0 = 0 := by linarith [h.2]
      nlinarith [hsq]
    · intro h
      rw [Point.mk.injEq] at h
      have h1 : (y1 - y0) / L = 0 := by linarith [h.1]
      have h2 : -(x1 - x0) / L = 0 := by linarith [h.2]
      rw [div_eq_zero_iff] at h1 h2
      have hy : y1 - y0 = 0 := h1.resolve_right hLne
      have hx : x1 - x0 = 0 := by
        have := h2.resolve_right hLne
        linarith [this]
      nlinarith [hsq]
    · intro h
      rw [Point.mk.injEq] at h
      have hx : x1 - x0 = 0 := by linarith [h.1]
      have hy : y1 - y0 = 0 := by linarith [h.2]
      nlinarith [hsq]
    · intro h
      rw [Point.mk.injEq] at h
      have h1 : (y1 - y0) / L = 0 := by linarith [h.1]
      have h2 : -(x1 - x0) / L = 0 := by linarith [h.2]
      rw [div_eq_zero_iff] at h1 h2
      have hy : y1 - y0 = 0 := h1.resolve_right hLne
      have hx : x1 - x0 = 0 := by
        have := h2.resolve_right hLne
        linarith [this]
      nlinarith [hsq]
    · refine not_segMeets_of_separated _ _ _ _ (y1 - y0) (-(x1 - x0))
        ((y1 - y0) * x0 - (x1 - x0) * y0 + L / 2)
        ((y1 - y0) * x0 - (x1 - x0) * y0 - L / 2) ?_ ?_ ?_ ?_ ?_
      · dsimp only
        field_simp
        linear_combination -2 * hL2
      · dsimp only
        field_simp
        linear_combination -2 * hL2
      · dsimp only
        field_simp
        linear_combination 2 * hL2
      · dsimp only
        field_simp
        linear_combination 2 * hL2
      · intro h
        linarith [hLpos]
    · refine not_segMeets_of_separated _ _ _ _ (x1 - x0) (y1 - y0)
        ((x1 - x0) * x1 + (y1 - y0) * y1)
        ((x1 - x0) * x0 + (y1 - y0) * y0) ?_ ?_ ?_ ?_ ?_
      · dsimp only
        field_simp
        ring
      · dsimp only
        field_simp
        ring
      · dsimp only
        field_simp
        ring
      · dsimp only
        field_simp
        ring
      · intro h
        have hzero : (x1 - x0) * (x1 - x0) + (y1 - y0) * (y1 - y0) = 0 := by
          linear_combination h
        linarith [hsq]

/-- Claim C7 (witness): the blade geometry theorem applied to the segment
from (0,0) to (3,4). -/
theorem bladePath_geometry_witness :
    ((⟨⟨0, 0⟩, ⟨3, 4⟩⟩ : Polyline).p0 ≠ (⟨⟨0, 0⟩, ⟨3, 4⟩⟩ : Polyline).p1) ∧
    BladeSpec ⟨⟨0, 0⟩, ⟨3, 4⟩⟩ := by
  have hne : (⟨⟨0, 0⟩, ⟨3, 4⟩⟩ : Polyline).p0 ≠ (⟨⟨0, 0⟩, ⟨3, 4⟩⟩ : Polyline).p1 := by
    intro h
    have hx := congrArg Point.x h
    norm_num at hx
  exact ⟨hne, bladePath_geometry _ hne⟩

lemma dilate_injective {c : ℝ} (hc : c ≠ 0) : Function.Injective (dilate c) := by
  intro p q h
  unfold dilate at h
  rw [Point.mk.injEq] at h
  exact Point.ext (mul_left_cancel₀ hc h.1) (mul_left_cancel₀ hc h.2)

lemma dilate_zero (c : ℝ) : dilate c ⟨0, 0⟩ = ⟨0, 0⟩ := by
  unfold dilate
  simp

lemma getD_map_point (f : Point → Point) (hf : f ⟨0, 0⟩ = ⟨0, 0⟩)
    (l : List Point) (n : ℕ) :
    (l.map f).getD n ⟨0, 0⟩ = f (l.getD n ⟨0, 0⟩) := by
  induction l generalizing n with
  | nil => simp [hf]
  | cons a l ih =>
      cases n with
      | zero => rfl
      | succ m => simpa using ih m

lemma ringVtx_map (f : Point → Point) (hf : f ⟨0, 0⟩ = ⟨0, 0⟩)
    (r : List Point) (i : ℕ) :
    ringVtx (r.map f) i = f (ringVtx r i) := by
  unfold ringVtx
  rw [List.length_map]
  exact getD_map_point f hf r _

lemma onSeg_dilate_surj {c : ℝ} {a b p : Point}
    (h : onSeg (dilate c a) (dilate c b) p) :
    ∃ q : Point, p = dilate c q ∧ onSeg a b q := by
  obtain ⟨t, ht0, ht1, hp⟩ := h
  refine ⟨⟨a.x + t * (b.x - a.x), a.y + t * (b.y - a.y)⟩, ?_, t, ht0, ht1, rfl⟩
  rw [hp]
  unfold dilate
  dsimp only
  rw [Point.mk.injEq]
  constructor <;> ring

lemma segMeets_of_dilate {c : ℝ} (hc : c ≠ 0) {a b u v : Point}
    (h : segMeets (dilate c a) (dilate c b) (dilate c u) (dilate c v)) :
    segMeets a b u v := by
  obtain ⟨p, h₁, h₂⟩ := h
  obtain ⟨q, rfl, hq⟩ := onSeg_dilate_surj h₁
  obtain ⟨q₂, hq₂eq, hq₂⟩ := onSeg_dilate_surj h₂
  refine ⟨q, hq, ?_⟩
  rw [dilate_injective hc hq₂eq]
  exact hq₂

lemma isSimpleRing_dilate {c : ℝ} (hc : c ≠ 0) {r : List Point}
    (h : IsSimpleRing r) : IsSimpleRing (r.map (dilate c)) := by
  obtain ⟨hlen, hcons, hsep⟩ := h
  have hf : dilate c ⟨0, 0⟩ = ⟨0, 0⟩ := dilate_zero c
  refine ⟨by rw [List.length_map]; exact hlen, ?_, ?_⟩
  · intro i hi
    rw [List.length_map] at hi
    rw [ringVtx_map _ hf, ringVtx_map _ hf]
    exact fun heq => hcons i hi (dilate_injective hc heq)
  · intro i j hi hj hij h1 h2
    rw [List.length_map] at hi hj h1 h2
    rw [ringVtx_map _ hf, ringVtx_map _ hf, ringVtx_map _ hf, ringVtx_map _ hf]
    exact fun hm => hsep i j hi hj hij h1 h2 (segMeets_of_dilate hc hm)

lemma threeDistinct_map {f : Point → Point} (hf : Function.Injective f)
    {r : List Point} (h : ThreeDistinct r) : ThreeDistinct (r.map f) := by
  obtain ⟨a, b, c, ha, hb, hc, hab, hac, hbc⟩ := h
  exact ⟨f a, f b, f c, List.mem_map_of_mem f ha, List.mem_map_of_mem f hb,
    List.mem_map_of_mem f hc, fun he => hab (hf he), fun he => hac (hf he),
    fun he => hbc (hf he)⟩

lemma signedArea2_dilate (c : ℝ) (r : List Point) :
    signedArea2 (r.map (dilate c)) = c ^ 2 * signedArea2 r := by
  unfold signedArea2
  rw [← List.map_rotate, List.zip_map, List.map_map]
  have hcong : ((r.zip (r.rotate 1)).map
        ((fun e : Point × Point => e.1.x * e.2.y - e.2.x * e.1.y) ∘
          Prod.map (dilate c) (dilate c))) =
      (r.zip (r.rotate 1)).map
        (fun e : Point × Point => c ^ 2 * (e.1.x * e.2.y - e.2.x * e.1.y)) := by
    apply List.map_congr_left
    intro e _
    dsimp [dilate, Prod.map]
    ring
  rw [hcong, List.sum_map_mul_left]

lemma scaleDownPath_eq_dilate (r : List IntPoint) :
    scaleDownPath r 100 = (r.map IntPoint.toPoint).map (dilate (1 / 100)) := by
  unfold scaleDownPath IntPoint.toPoint dilate
  rw [List.map_map]
  apply List.map_congr_left
  intro q _
  dsimp only [Function.comp]
  rw [Point.mk.injEq]
  constructor <;> ring

lemma canvasPath_simple {w h : ℝ} (hw : 0 < w) (hh : 0 < h) :
    IsSimpleRing (canvasPath w h) := by
  unfold canvasPath
  refine isSimpleRing_quad _ _ _ _ ?_ ?_ ?_ ?_ ?_ ?_
  · intro he
    rw [Point.mk.injEq] at he
    exact absurd he.1 (by linarith)
  · intro he
    rw [Point.mk.injEq] at he
    exact absurd he.2 (by linarith)
  · intro he
    rw [Point.mk.injEq] at he
    exact absurd he.1 (by linarith)
  · intro he
    rw [Point.mk.injEq] at he
    exact absurd he.2 (by linarith)
  · exact not_segMeets_of_separated _ _ _ _ 0 1 0 h (by dsimp only; ring)
      (by dsimp only; ring) (by dsimp only; ring) (by dsimp only; ring)
      (by linarith)
  · exact not_segMeets_of_separated _ _ _ _ 1 0 w 0 (by dsimp only; ring)
      (by dsimp only; ring) (by dsimp only; ring) (by dsimp only; ring)
      (by linarith)

lemma canvasPath_threeDistinct {w h : ℝ} (hw : 0 < w) (hh : 0 < h) :
    ThreeDistinct (canvasPath w h) := by
  refine ⟨⟨0, 0⟩, ⟨w, 0⟩, ⟨w, h⟩, by simp [canvasPath], by simp [canvasPath],
    by simp [canvasPath], ?_, ?_, ?_⟩
  · intro he
    rw [Point.mk.injEq] at he
    exact absurd he.1 (by linarith)
  · intro he
    rw [Point.mk.injEq] at he
    exact absurd he.1 (by linarith)
  · intro he
    rw [Point.mk.injEq] at he
    exact absurd he.2 (by linarith)

lemma signedArea2_canvasPath (w h : ℝ) :
    signedArea2 (canvasPath w h) = 2 * (w * h) := by
  have hrot : (canvasPath w h).rotate 1 =
      [⟨w, 0⟩, ⟨w, h⟩, ⟨0, h⟩, ⟨0, 0⟩] := by
    simp [canvasPath, List.rotate]
  unfold signedArea2
  rw [hrot]
  unfold canvasPath
  simp [List.zip]
  ring

/-- Claim C5: for every valid canvas and cut list, and any clipping engine
meeting the step-7 output guarantee of the design document, every polygon returned by
`splitSurface` is a simple ring with at least 3 distinct points and strictly
positive (doubled, signed) area; rings failing these conditions never appear
in the result. -/
theorem splitSurface_output_invariants (engine : Engine)
    (hE : EngineOutputOK engine) (w h : ℝ) (hw : 0 < w) (hh : 0 < h)
    (ps : List Polyline) :
    ∀ poly ∈ splitSurface engine w h ps,
      IsSimpleRing poly ∧ ThreeDistinct poly ∧ 0 < signedArea2 poly := by
  intro poly hpoly
  cases hps : ps.isEmpty with
  | true =>
      have hnil : ps = [] := List.isEmpty_iff.mp hps
      subst hnil
      have hval : splitSurface engine w h [] = [canvasPath w h] := rfl
      rw [hval, List.mem_singleton] at hpoly
      subst hpoly
      refine ⟨canvasPath_simple hw hh, canvasPath_threeDistinct hw hh, ?_⟩
      rw [signedArea2_canvasPath]
      positivity
  | false =>
      simp only [splitSurface, hps, Bool.false_eq_true, if_false] at hpoly
      cases heng : engine (scaleUpPath (canvasPath w h) 100)
          (ps.filterMap (clipOf 100)) with
      | none =>
          rw [heng] at hpoly
          simp at hpoly
      | some sol =>
          rw [heng] at hpoly
          simp only [List.mem_map] at hpoly
          obtain ⟨rr, hrr, rfl⟩ := hpoly
          have hrsol : rr ∈ sol := (List.mem_filter.mp hrr).1
          obtain ⟨hs, h3, ha⟩ := hE _ _ _ heng rr hrsol
          rw [scaleDownPath_eq_dilate]
          refine ⟨isSimpleRing_dilate (by norm_num) hs,
            threeDistinct_map (dilate_injective (by norm_num)) h3, ?_⟩
          rw [signedArea2_dilate]
          positivity

/-- Claim C5 (witness): the invariants theorem applied to the always-empty
successful engine (which meets the output contract) on a 100×50 canvas with
no cuts. -/
theorem splitSurface_output_invariants_witness :
    EngineOutputOK emptySuccessEngine ∧ (0 : ℝ) < 100 ∧ (0 : ℝ) < 50 ∧
    ∀ poly ∈ splitSurface emptySuccessEngine 100 50 [],
      IsSimpleRing poly ∧ ThreeDistinct poly ∧ 0 < signedArea2 poly := by
  have hE : EngineOutputOK emptySuccessEngine := by
    intro subj clips sol hsol r hr
    unfold emptySuccessEngine at hsol
    rw [Option.some.injEq] at hsol
    subst hsol
    simp at hr
  exact ⟨hE, by norm_num, by norm_num,
    splitSurface_output_invariants emptySuccessEngine hE 100 50 (by norm_num)
      (by norm_num) []⟩

lemma outsideAwareEngine_spec : RespectsDisjointClips outsideAwareEngine := by
  intro subj clips hsep
  unfold outsideAwareEngine
  rw [if_pos]
  simp only [List.all_eq_true, decide_eq_true_eq]
  exact hsep

/-- The canvas subject path of a 100×100 canvas on the lattice. -/
lemma scaleUp_canvas_100 : scaleUpPath (canvasPath 100 100) 100 =
    [⟨0, 0⟩, ⟨10000, 0⟩, ⟨10000, 10000⟩, ⟨0, 10000⟩] := by
  have h0 : jsRound ((0 : ℝ) * 100) = 0 := by
    unfold jsRound
    rw [show ((0 : ℝ) * 100 + 1 / 2) = 1 / 2 by norm_num, Int.floor_eq_iff]
    norm_num
  have h100 : jsRound ((100 : ℝ) * 100) = 10000 := by
    unfold jsRound
    rw [Int.floor_eq_iff]
    norm_num
  unfold scaleUpPath canvasPath
  simp only [List.map_cons, List.map_nil]
  rw [h0, h100]

/-- Claim C9: on a 100×100 canvas, a single cut segment lying entirely
outside the canvas (from (200,200) to (300,300)) leaves the partition
unchanged: the result is the single whole-canvas polygon, identical to the
no-cuts result, for any engine meeting the disjoint-clips contract. -/
theorem splitSurface_outside_cut (engine : Engine)
    (hE : RespectsDisjointClips engine) :
    splitSurface engine 100 100 [⟨⟨200, 200⟩, ⟨300, 300⟩⟩] =
      [canvasPath 100 100] ∧
    splitSurface engine 100 100 [⟨⟨200, 200⟩, ⟨300, 300⟩⟩] =
      splitSurface engine 100 100 [] := by
  set L := Real.sqrt (((300 : ℝ) - 200) * ((300 : ℝ) - 200) +
      ((300 : ℝ) - 200) * ((300 : ℝ) - 200)) with hLdef
  have hLpos : 0 < L := Real.sqrt_pos.mpr (by norm_num)
  have hL100 : 100 ≤ L := by
    rw [hLdef]
    rw [show (((300 : ℝ) - 200) * ((300 : ℝ) - 200) +
      ((300 : ℝ) - 200) * ((300 : ℝ) - 200)) = 20000 by norm_num]
    nlinarith [Real.sq_sqrt (by norm_num : (0 : ℝ) ≤ 20000),
      Real.sqrt_nonneg (20000 : ℝ)]
  have h50 : (50 : ℝ) / L ≤ 1 := by
    rw [div_le_one hLpos]
    linarith
  have h50nn : (0 : ℝ) ≤ 50 / L := by positivity
  have key : ∀ x : ℝ, (199 : ℝ) ≤ x → (10000 : ℤ) < jsRound (x * 100) := by
    intro x hx
    unfold jsRound
    have hfl : (10001 : ℤ) ≤ ⌊x * 100 + 1 / 2⌋ := by
      rw [Int.le_floor]
      push_cast
      linarith
    omega
  have hLne : Real.sqrt (((300 : ℝ) - 200) * ((300 : ℝ) - 200) +
      ((300 : ℝ) - 200) * ((300 : ℝ) - 200)) ≠ 0 := ne_of_gt hLpos
  have hclip : clipOf 100 (⟨⟨200, 200⟩, ⟨300, 300⟩⟩ : Polyline) =
      some (scaleUpPath (bladePath ⟨⟨200, 200⟩, ⟨300, 300⟩⟩ 100) 100) := by
    unfold clipOf
    dsimp only
    rw [if_neg hLne]
  have hblade : ∀ p ∈ scaleUpPath (bladePath ⟨⟨200, 200⟩, ⟨300, 300⟩⟩ 100) 100,
      (10000 : ℤ) < p.X := by
    intro p hp
    unfold scaleUpPath bladePath at hp
    simp only [List.map_cons, List.map_nil, List.mem_cons, List.not_mem_nil,
      or_false] at hp
    have hu : ((300 : ℝ) - 200) / L * (1 / 2 * 100 / 100) = 50 / L := by
      ring
    rcases hp with hp | hp | hp | hp <;>
      · subst hp
        dsimp only
        rw [hu]
        exact key _ (by linarith)
  have hprem : ∀ r ∈ [scaleUpPath (bladePath ⟨⟨200, 200⟩, ⟨300, 300⟩⟩ 100) 100],
      ∀ p ∈ r, ∀ q ∈ ([⟨0, 0⟩, ⟨10000, 0⟩, ⟨10000, 10000⟩, ⟨0, 10000⟩] :
        List IntPoint), q.X < p.X := by
    intro r hr p hp q hq
    rw [List.mem_singleton] at hr
    subst hr
    have hpx := hblade p hp
    simp only [List.mem_cons, List.not_mem_nil, or_false] at hq
    rcases hq with hq | hq | hq | hq <;> subst hq <;> dsimp only <;> omega
  have heng : engine [⟨0, 0⟩, ⟨10000, 0⟩, ⟨10000, 10000⟩, ⟨0, 10000⟩]
      [scaleUpPath (bladePath ⟨⟨200, 200⟩, ⟨300, 300⟩⟩ 100) 100] =
      some [[⟨0, 0⟩, ⟨10000, 0⟩, ⟨10000, 10000⟩, ⟨0, 10000⟩]] :=
    hE _ _ hprem
  have hmain : splitSurface engine 100 100 [⟨⟨200, 200⟩, ⟨300, 300⟩⟩] =
      [canvasPath 100 100] := by
    have hne : ([⟨⟨200, 200⟩, ⟨300, 300⟩⟩] : List Polyline).isEmpty = false := rfl
    simp only [splitSurface, hne, Bool.false_eq_true, if_false,
      List.filterMap_cons, hclip, List.filterMap_nil, scaleUp_canvas_100, heng]
    simp only [List.filter_cons, List.filter_nil, List.length_cons,
      List.length_nil, scaleDownPath, List.map_cons, List.map_nil]
    unfold canvasPath
    norm_num
  exact ⟨hmain, hmain.trans rfl⟩

/-- Claim C9 (witness): the outside-cut theorem applied to the concrete
separation-checking engine. -/
theorem splitSurface_outside_cut_witness :
    RespectsDisjointClips outsideAwareEngine ∧
    splitSurface outsideAwareEngine 100 100 [⟨⟨200, 200⟩, ⟨300, 300⟩⟩] =
      [canvasPath 100 100] :=
  ⟨outsideAwareEngine_spec,
    (splitSurface_outside_cut outsideAwareEngine outsideAwareEngine_spec).1⟩

end Patterns
